import Mathlib

/-
Verification of the cached parallel download pipeline and the crawlers of the
copernicus-marine-toolkit repository.

Shallow embedding conventions:
  * Python dicts keyed by strings (the cache index, the filesystem view of a
    directory) are modelled as association lists with first-match lookup
    semantics, which coincides with dict lookup because mutation replaces the
    previous binding.
  * `datetime` timestamps are modelled as natural numbers counting seconds;
    `timedelta(days = d)` is `d * 86400` seconds.  Python compares signed
    timedeltas, but `now - date > window` agrees with truncated `Nat`
    subtraction in every case (a negative difference is never greater than a
    nonnegative window, and truncation yields `0`, which is also never
    greater).
  * `hashlib.md5(url.encode()).hexdigest()` is an external library call; it is
    modelled as an explicit function parameter `hash : String → String`.
  * The network (`requests.Session.get` with `stream=True`) is modelled by a
    `FetchBehavior` oracle per URL: a successful streamed body, a failure
    before the destination file is opened (connection/timeout error on the
    initial request or a `raise_for_status` failure), or a failure in the
    middle of `iter_content` after some chunks were already written.
  * Exceptions are modelled by the explicit error branches of those oracles;
    `download_file` wraps its whole body in `try/except Exception`, so it is a
    total function on this model.
-/

/-- First-match association-list lookup, the model of Python dict indexing. -/
def alookup {κ α : Type} [DecidableEq κ] (k : κ) : List (κ × α) → Option α
  | [] => none
  | (k', v) :: rest => if k' = k then some v else alookup k rest

/-- Removal of every binding of a key, the model of `del d[k]` (and of
deleting the file named `k` from a directory). -/
def aremove {κ α : Type} [DecidableEq κ] (k : κ) : List (κ × α) → List (κ × α)
  | [] => []
  | (k', v) :: rest => if k' = k then aremove k rest else (k', v) :: aremove k rest

theorem alookup_aremove_self {κ α : Type} [DecidableEq κ] (k : κ) (l : List (κ × α)) :
    alookup k (aremove k l) = none := by
  induction l with
  | nil => rfl
  | cons p rest ih =>
    obtain ⟨k', v⟩ := p
    by_cases h : k' = k
    · simp [aremove, h, ih]
    · simp [aremove, alookup, h, ih]

theorem alookup_cons_self {κ α : Type} [DecidableEq κ] (k : κ) (v : α) (l : List (κ × α)) :
    alookup k ((k, v) :: l) = some v := by
  simp [alookup]

/-- A cache index record, from `CacheManager.add_to_cache`
(src/scrape_copernicus_enhanced.py lines 101-107). -/
structure CacheEntry where
  url : String
  filename : String
  originalName : String
  date : Nat
  size : Nat
deriving Repr, DecidableEq

/-- The in-memory state a `CacheManager` owns: the expiry configuration, the
loaded index (`self.index`), and the contents of the cache directory, viewed
as an association of file names to byte sizes. -/
structure CacheState where
  expireDays : Nat
  index : List (String × CacheEntry)
  files : List (String × Nat)
deriving Repr, DecidableEq

def secondsPerDay : Nat := 86400

/-- `CacheManager.remove_cache` (lines 112-124): if the key is present, delete
the backing file when it exists and drop the index entry; otherwise do
nothing. -/
def removeCache (hash : String → String) (s : CacheState) (url : String) : CacheState :=
  let key := hash url
  match alookup key s.index with
  | none => s
  | some info =>
    { s with
      files := aremove info.filename s.files,
      index := aremove key s.index }

/-- `CacheManager.is_cached` (lines 62-79).  Returns the answer together with
the possibly mutated state, because an expired entry is evicted on the way
out. -/
def isCached (hash : String → String) (now : Nat) (s : CacheState) (url : String) :
    Bool × CacheState :=
  let key := hash url
  match alookup key s.index with
  | none => (false, s)
  | some info =>
    if now - info.date > s.expireDays * secondsPerDay then
      (false, removeCache hash s url)
    else
      ((alookup info.filename s.files).isSome, s)

/-- `CacheManager.get_cached_file` (lines 81-88): re-checks `is_cached` and
returns the backing file name on a hit. -/
def getCachedFile (hash : String → String) (now : Nat) (s : CacheState) (url : String) :
    Option String × CacheState :=
  let (hit, s1) := isCached hash now s url
  if hit then
    match alookup (hash url) s1.index with
    | some info => (some info.filename, s1)
    | none => (none, s1)
  else (none, s1)

/-- `Path.name`: the final component of a path. -/
def fileBaseName (path : String) : String :=
  (path.splitOn "/").getLastD path

/-- Writing a file: `open(path, 'wb')` truncates any previous content, so the
binding for `path` is replaced. -/
def fsSet (fs : List (String × Nat)) (path : String) (sz : Nat) : List (String × Nat) :=
  (path, sz) :: aremove path fs

/-- `CacheManager.add_to_cache` (lines 90-110): copy the source file into the
cache directory under `key + "_" + source_file.name`, then record the entry
with the current timestamp.  Returns the new state and the cache file name. -/
def addToCache (hash : String → String) (now : Nat) (s : CacheState) (url : String)
    (sourcePath : String) (sourceSize : Nat) : CacheState × String :=
  let key := hash url
  let cacheFilename := key ++ "_" ++ fileBaseName sourcePath
  ({ s with
      files := fsSet s.files cacheFilename sourceSize,
      index := (key,
        { url := url, filename := cacheFilename, originalName := fileBaseName sourcePath,
          date := now, size := sourceSize }) :: aremove key s.index },
    cacheFilename)

/-- Behaviour of one `self.session.get(url, stream=True, timeout=60)` call
together with the subsequent streamed write: either the full body arrives as
a list of chunk sizes, or the call raises before the destination file is
opened, or it raises during `iter_content` after some chunks were written. -/
inductive FetchBehavior where
  | ok (chunks : List Nat)
  | failEarly (msg : String)
  | failMid (written : List Nat) (msg : String)
deriving Repr, DecidableEq

/-- The result dict built by `ParallelDownloader.download_file`
(lines 183-190). -/
structure DownloadResult where
  url : String
  filepath : String
  success : Bool
  cached : Bool
  size : Nat
  error : Option String
deriving Repr, DecidableEq

/-- Everything one `download_file` call produces: the result dict, the cache
manager's state, the destination filesystem, and whether the network GET path
was reached (the instrumentation needed to speak about "the Fetcher was never
invoked"). -/
structure DLOutcome where
  result : DownloadResult
  cache : Option CacheState
  fs : List (String × Nat)
  fetcherInvoked : Bool
deriving Repr, DecidableEq

/-- `ParallelDownloader.download_file` (lines 171-228).  `fetch` is the
network oracle, `cacheAddError` says whether `add_to_cache` raises a
filesystem error for the given URL (`shutil.copy2` raising before any cache
mutation), and `cache = none` models `self.cache_manager is None`. -/
def downloadFile (hash : String → String) (fetch : String → FetchBehavior)
    (cacheAddError : String → Option String) (now : Nat)
    (cache : Option CacheState) (fs : List (String × Nat))
    (url filepath : String) (useCache : Bool) : DLOutcome :=
  let r0 : DownloadResult :=
    { url := url, filepath := filepath, success := false, cached := false,
      size := 0, error := none }
  let checked : Option DLOutcome × Option CacheState :=
    if useCache then
      match cache with
      | none => (none, none)
      | some c =>
        let (hit, c1) := isCached hash now c url
        if hit then
          match getCachedFile hash now c1 url with
          | (some cf, c2) =>
            match alookup cf c2.files with
            | some sz =>
              (some { result := { r0 with success := true, cached := true, size := sz },
                      cache := some c2, fs := fsSet fs filepath sz, fetcherInvoked := false },
               some c2)
            | none =>
              (some { result := { r0 with error := some "cache copy failed" },
                      cache := some c2, fs := fs, fetcherInvoked := false },
               some c2)
          | (none, c2) => (none, some c2)
        else (none, some c1)
    else (none, cache)
  match checked with
  | (some out, _) => out
  | (none, cache1) =>
    match fetch url with
    | .failEarly msg =>
      { result := { r0 with error := some msg }, cache := cache1, fs := fs,
        fetcherInvoked := true }
    | .failMid written msg =>
      { result := { r0 with error := some msg }, cache := cache1,
        fs := fsSet fs filepath written.sum, fetcherInvoked := true }
    | .ok chunks =>
      let total := chunks.sum
      let fs1 := fsSet fs filepath total
      let r1 := { r0 with success := true, size := total }
      if useCache then
        match cache1 with
        | some c =>
          match cacheAddError url with
          | none =>
            { result := r1, cache := some (addToCache hash now c url filepath total).1,
              fs := fs1, fetcherInvoked := true }
          | some msg =>
            { result := { r1 with error := some msg }, cache := some c, fs := fs1,
              fetcherInvoked := true }
        | none => { result := r1, cache := none, fs := fs1, fetcherInvoked := true }
      else { result := r1, cache := cache1, fs := fs1, fetcherInvoked := true }

/-- `ParallelDownloader.download_batch` (lines 230-270), with the thread
pool's `as_completed` order modelled as one serialization of the independent
per-task calls.  Every task yields exactly one result; `download_file` never
raises, so neither does the batch. -/
def downloadBatch (hash : String → String) (fetch : String → FetchBehavior)
    (cacheAddError : String → Option String) (now : Nat) (useCache : Bool) :
    List (String × String) → Option CacheState × List (String × Nat) →
    List DownloadResult × (Option CacheState × List (String × Nat))
  | [], st => ([], st)
  | (url, path) :: rest, st =>
    let o := downloadFile hash fetch cacheAddError now st.1 st.2 url path useCache
    let (rs, st') := downloadBatch hash fetch cacheAddError now useCache rest (o.cache, o.fs)
    (o.result :: rs, st')

/-- Error messages produced by the network oracle are human-readable
(non-empty) strings — `str(e)` of a transport exception. -/
def fetchMsgOk : FetchBehavior → Prop
  | .ok _ => True
  | .failEarly m => m ≠ ""
  | .failMid _ m => m ≠ ""

theorem downloadFile_url (hash : String → String) (fetch : String → FetchBehavior)
    (cacheAddError : String → Option String) (now : Nat) (cache : Option CacheState)
    (fs : List (String × Nat)) (url filepath : String) (useCache : Bool) :
    (downloadFile hash fetch cacheAddError now cache fs url filepath useCache).result.url
      = url := by
  unfold downloadFile
  dsimp only
  split
  · rename_i out snd heq
    repeat' split at heq
    all_goals simp only [Prod.mk.injEq, Option.some.injEq] at heq
    all_goals (obtain ⟨h1, h2⟩ := heq)
    all_goals (first | (exact Option.noConfusion h1) | (rw [← h1]))
  · (repeat' split) <;> rfl

theorem downloadFile_failed_error (hash : String → String) (fetch : String → FetchBehavior)
    (cacheAddError : String → Option String) (now : Nat) (cache : Option CacheState)
    (fs : List (String × Nat)) (url filepath : String) (useCache : Bool)
    (hmsg : fetchMsgOk (fetch url)) :
    (downloadFile hash fetch cacheAddError now cache fs url filepath useCache).result.success
        = false →
      ∃ m, (downloadFile hash fetch cacheAddError now cache fs url filepath
        useCache).result.error = some m ∧ m ≠ "" := by
  unfold downloadFile
  dsimp only
  split
  · rename_i out snd heq
    repeat' split at heq
    all_goals simp only [Prod.mk.injEq, Option.some.injEq] at heq
    all_goals (obtain ⟨h1, h2⟩ := heq)
    all_goals (first | (exact Option.noConfusion h1) | (rw [← h1]))
    all_goals (intro hsucc)
    all_goals first
      | (exact ⟨_, rfl, by simp⟩)
      | simp_all
  · rename_i cache1 heq
    split
    · rename_i msg hf
      rw [hf] at hmsg
      exact fun _ => ⟨msg, rfl, hmsg⟩
    · rename_i written msg hf
      rw [hf] at hmsg
      exact fun _ => ⟨msg, rfl, hmsg⟩
    · intro hsucc
      repeat' split at hsucc
      all_goals simp_all

/-- C1: for every locator with a pre-populated, unexpired cache entry whose
backing file exists, `download_file` run with `use_cache=true` returns a
result with `cached=true` and `success=true`, and the network GET path (the
Fetcher) is never reached. -/
theorem cache_short_circuit_serves_from_cache (hash : String → String)
    (fetch : String → FetchBehavior) (cacheAddError : String → Option String)
    (now : Nat) (c : CacheState) (fs : List (String × Nat)) (url filepath : String)
    (e : CacheEntry) (sz : Nat)
    (hidx : alookup (hash url) c.index = some e)
    (hfresh : ¬ now - e.date > c.expireDays * secondsPerDay)
    (hfile : alookup e.filename c.files = some sz) :
    (downloadFile hash fetch cacheAddError now (some c) fs url filepath true).result.cached
        = true
    ∧ (downloadFile hash fetch cacheAddError now (some c) fs url filepath
        true).result.success = true
    ∧ (downloadFile hash fetch cacheAddError now (some c) fs url filepath
        true).fetcherInvoked = false := by
  simp [downloadFile, isCached, getCachedFile, hidx, hfresh, hfile]

theorem cache_short_circuit_serves_from_cache_witness :
    (alookup "u" (⟨30, [("u", ⟨"u", "f", "a.zip", 0, 10⟩)], [("f", 10)]⟩ :
        CacheState).index = some ⟨"u", "f", "a.zip", 0, 10⟩)
    ∧ ((downloadFile (fun s => s) (fun _ => .failEarly "boom") (fun _ => none) 5
        (some ⟨30, [("u", ⟨"u", "f", "a.zip", 0, 10⟩)], [("f", 10)]⟩) [] "u" "out"
        true).result.cached = true
      ∧ (downloadFile (fun s => s) (fun _ => .failEarly "boom") (fun _ => none) 5
        (some ⟨30, [("u", ⟨"u", "f", "a.zip", 0, 10⟩)], [("f", 10)]⟩) [] "u" "out"
        true).result.success = true
      ∧ (downloadFile (fun s => s) (fun _ => .failEarly "boom") (fun _ => none) 5
        (some ⟨30, [("u", ⟨"u", "f", "a.zip", 0, 10⟩)], [("f", 10)]⟩) [] "u" "out"
        true).fetcherInvoked = false) :=
  ⟨by decide, cache_short_circuit_serves_from_cache (fun s => s)
    (fun _ => .failEarly "boom") (fun _ => none) 5
    ⟨30, [("u", ⟨"u", "f", "a.zip", 0, 10⟩)], [("f", 10)]⟩ [] "u" "out"
    ⟨"u", "f", "a.zip", 0, 10⟩ 10 (by decide) (by decide) (by decide)⟩

/-- C3: a locator whose key is absent from the index is not cached; after a
successful `add_to_cache` the locator stays cached at every instant within
the expiry window, the backing file not having been deleted in between. -/
theorem cache_round_trip (hash : String → String) (s : CacheState) (now : Nat)
    (url : String) :
    (alookup (hash url) s.index = none → (isCached hash now s url).1 = false)
    ∧ ∀ sourcePath sourceSize later,
        ¬ later - now > s.expireDays * secondsPerDay →
        (isCached hash later (addToCache hash now s url sourcePath sourceSize).1 url).1
          = true := by
  constructor
  · intro h
    simp [isCached, h]
  · intro sourcePath sourceSize later hfresh
    simp [isCached, addToCache, fsSet, alookup_cons_self, hfresh]

theorem cache_round_trip_witness :
    (alookup "u" (⟨30, [], []⟩ : CacheState).index = none
      → (isCached (fun s => s) 0 ⟨30, [], []⟩ "u").1 = false)
    ∧ (¬ (7 : Nat) - 5 > 30 * secondsPerDay
      ∧ (isCached (fun s => s) 7
          (addToCache (fun s => s) 5 ⟨30, [], []⟩ "u" "dir/a.zip" 10).1 "u").1 = true) :=
  ⟨(cache_round_trip (fun s => s) ⟨30, [], []⟩ 0 "u").1,
   by decide,
   (cache_round_trip (fun s => s) ⟨30, [], []⟩ 5 "u").2 "dir/a.zip" 10 7 (by decide)⟩

/-- C7: an index entry whose backing file was externally deleted answers
`is_cached = false`, with no exception and no state mutation. -/
theorem selfhealing_read (hash : String → String) (now : Nat) (s : CacheState)
    (url : String) (e : CacheEntry)
    (hidx : alookup (hash url) s.index = some e)
    (hfresh : ¬ now - e.date > s.expireDays * secondsPerDay)
    (hmiss : alookup e.filename s.files = none) :
    isCached hash now s url = (false, s) := by
  simp [isCached, hidx, hfresh, hmiss]

theorem selfhealing_read_witness :
    (alookup "u" (⟨30, [("u", ⟨"u", "f", "a.zip", 0, 10⟩)], []⟩ :
        CacheState).index = some ⟨"u", "f", "a.zip", 0, 10⟩)
    ∧ isCached (fun s => s) 5 ⟨30, [("u", ⟨"u", "f", "a.zip", 0, 10⟩)], []⟩ "u"
        = (false, ⟨30, [("u", ⟨"u", "f", "a.zip", 0, 10⟩)], []⟩) :=
  ⟨by decide, selfhealing_read (fun s => s) 5
    ⟨30, [("u", ⟨"u", "f", "a.zip", 0, 10⟩)], []⟩ "u" ⟨"u", "f", "a.zip", 0, 10⟩
    (by decide) (by decide) (by decide)⟩

/-- C9: `remove_cache` is idempotent — a second removal is a no-op, removing
an absent locator is a no-op rather than an error, and after any removal the
index no longer contains the locator's entry. -/
theorem remove_cache_idempotent (hash : String → String) (s : CacheState)
    (url : String) :
    removeCache hash (removeCache hash s url) url = removeCache hash s url
    ∧ (alookup (hash url) s.index = none → removeCache hash s url = s)
    ∧ alookup (hash url) (removeCache hash s url).index = none := by
  rcases h : alookup (hash url) s.index with _ | info
  · refine ⟨?_, fun _ => ?_, ?_⟩ <;> simp [removeCache, h]
  · have h2 : alookup (hash url) (aremove (hash url) s.index) = none :=
      alookup_aremove_self _ _
    refine ⟨?_, fun hn => absurd hn (by simp), ?_⟩
    · simp [removeCache, h, h2]
    · simp [removeCache, h, h2]

theorem remove_cache_idempotent_witness :
    removeCache (fun s => s)
        (removeCache (fun s => s) ⟨30, [("u", ⟨"u", "f", "a.zip", 0, 10⟩)], [("f", 10)]⟩ "u")
        "u"
      = removeCache (fun s => s) ⟨30, [("u", ⟨"u", "f", "a.zip", 0, 10⟩)], [("f", 10)]⟩ "u"
    ∧ (alookup "v" (⟨30, [], []⟩ : CacheState).index = none
        → removeCache (fun s => s) ⟨30, [], []⟩ "v" = ⟨30, [], []⟩)
    ∧ alookup "u"
        (removeCache (fun s => s) ⟨30, [("u", ⟨"u", "f", "a.zip", 0, 10⟩)], [("f", 10)]⟩
          "u").index = none :=
  ⟨(remove_cache_idempotent (fun s => s)
      ⟨30, [("u", ⟨"u", "f", "a.zip", 0, 10⟩)], [("f", 10)]⟩ "u").1,
   (remove_cache_idempotent (fun s => s) ⟨30, [], []⟩ "v").2.1,
   (remove_cache_idempotent (fun s => s)
      ⟨30, [("u", ⟨"u", "f", "a.zip", 0, 10⟩)], [("f", 10)]⟩ "u").2.2⟩

/-- C5: when the network fetch succeeds but `add_to_cache` raises a
filesystem error, the returned result still has `success=true` with the full
size, the downloaded destination file is kept, the cache state is not rolled
back to invalidate anything, and the failure is surfaced only through the
result's error field. -/
theorem best_effort_cache_write (hash : String → String)
    (fetch : String → FetchBehavior) (cacheAddError : String → Option String)
    (now : Nat) (c : CacheState) (fs : List (String × Nat)) (url filepath : String)
    (chunks : List Nat) (msg : String)
    (hfetch : fetch url = .ok chunks)
    (herr : cacheAddError url = some msg)
    (hmiss : (isCached hash now c url).1 = false) :
    (downloadFile hash fetch cacheAddError now (some c) fs url filepath
        true).result.success = true
    ∧ (downloadFile hash fetch cacheAddError now (some c) fs url filepath
        true).result.size = chunks.sum
    ∧ (downloadFile hash fetch cacheAddError now (some c) fs url filepath
        true).result.error = some msg
    ∧ alookup filepath
        (downloadFile hash fetch cacheAddError now (some c) fs url filepath true).fs
        = some chunks.sum
    ∧ (downloadFile hash fetch cacheAddError now (some c) fs url filepath true).cache
        = some (isCached hash now c url).2 := by
  simp [downloadFile, hmiss, hfetch, herr, fsSet, alookup_cons_self]

theorem best_effort_cache_write_witness :
    ((fun _ => FetchBehavior.ok [512, 512]) "u" = FetchBehavior.ok [512, 512]
      ∧ (fun _ => some "disk full") "u" = some "disk full"
      ∧ (isCached (fun s => s) 0 ⟨30, [], []⟩ "u").1 = false)
    ∧ ((downloadFile (fun s => s) (fun _ => .ok [512, 512]) (fun _ => some "disk full") 0
        (some ⟨30, [], []⟩) [] "u" "out/a.zip" true).result.success = true
      ∧ (downloadFile (fun s => s) (fun _ => .ok [512, 512]) (fun _ => some "disk full") 0
        (some ⟨30, [], []⟩) [] "u" "out/a.zip" true).result.error = some "disk full") := by
  refine ⟨⟨rfl, rfl, by decide⟩, ?_, ?_⟩
  · exact (best_effort_cache_write (fun s => s) (fun _ => .ok [512, 512])
      (fun _ => some "disk full") 0 ⟨30, [], []⟩ [] "u" "out/a.zip" [512, 512]
      "disk full" rfl rfl (by decide)).1
  · exact (best_effort_cache_write (fun s => s) (fun _ => .ok [512, 512])
      (fun _ => some "disk full") 0 ⟨30, [], []⟩ [] "u" "out/a.zip" [512, 512]
      "disk full" rfl rfl (by decide)).2.2.1

/-- C4 fails on the code as stated: a transport error that strikes in the
middle of `iter_content`, after a chunk of 100 bytes was already written,
leaves the partially written destination file on disk — `download_file` has
no cleanup path — even though the result correctly reports the failure. -/
theorem failed_fetch_leaves_partial_file :
    (downloadFile (fun s => s) (fun _ => .failMid [100] "timeout") (fun _ => none) 0
        none [] "http://x/a.zip" "out/a.zip" true).result.success = false
    ∧ (downloadFile (fun s => s) (fun _ => .failMid [100] "timeout") (fun _ => none) 0
        none [] "http://x/a.zip" "out/a.zip" true).result.error = some "timeout"
    ∧ alookup "out/a.zip"
        (downloadFile (fun s => s) (fun _ => .failMid [100] "timeout") (fun _ => none) 0
          none [] "http://x/a.zip" "out/a.zip" true).fs = some 100 := by
  decide

/-- C4 amended: with no cache manager attached, a transport error raised
before the destination file is opened (on the initial request or the status
check) yields `success=false`, the non-empty error message, and an untouched
destination filesystem; an error raised during body streaming yields the same
failure result but leaves the partial file, with the bytes written so far, on
disk. -/
theorem failed_fetch_atomicity_before_write (hash : String → String)
    (fetch : String → FetchBehavior) (cacheAddError : String → Option String)
    (now : Nat) (fs : List (String × Nat)) (url filepath : String)
    (msg : String) (written : List Nat) (useCache : Bool)
    (hmsg : msg ≠ "") :
    (fetch url = .failEarly msg →
      (downloadFile hash fetch cacheAddError now none fs url filepath
          useCache).result.success = false
      ∧ (downloadFile hash fetch cacheAddError now none fs url filepath
          useCache).result.error = some msg
      ∧ msg ≠ ""
      ∧ (downloadFile hash fetch cacheAddError now none fs url filepath useCache).fs = fs)
    ∧ (fetch url = .failMid written msg →
      (downloadFile hash fetch cacheAddError now none fs url filepath
          useCache).result.success = false
      ∧ (downloadFile hash fetch cacheAddError now none fs url filepath
          useCache).result.error = some msg
      ∧ alookup filepath
          (downloadFile hash fetch cacheAddError now none fs url filepath useCache).fs
          = some written.sum) := by
  constructor
  · intro hf
    refine ⟨?_, ?_, hmsg, ?_⟩ <;> cases useCache <;> simp [downloadFile, hf]
  · intro hf
    refine ⟨?_, ?_, ?_⟩ <;> cases useCache <;>
      simp [downloadFile, hf, fsSet, alookup_cons_self]

theorem failed_fetch_atomicity_before_write_witness :
    ("timeout" ≠ ""
      ∧ (fun _ => FetchBehavior.failEarly "timeout") "http://x/a.zip"
          = FetchBehavior.failEarly "timeout")
    ∧ ((downloadFile (fun s => s) (fun _ => .failEarly "timeout") (fun _ => none) 0 none
        [] "http://x/a.zip" "out/a.zip" true).result.success = false
      ∧ (downloadFile (fun s => s) (fun _ => .failEarly "timeout") (fun _ => none) 0 none
        [] "http://x/a.zip" "out/a.zip" true).fs = []) := by
  refine ⟨⟨by decide, rfl⟩, ?_, ?_⟩
  · exact ((failed_fetch_atomicity_before_write (fun s => s)
      (fun _ => .failEarly "timeout") (fun _ => none) 0 [] "http://x/a.zip" "out/a.zip"
      "timeout" [] true (by decide)).1 rfl).1
  · exact ((failed_fetch_atomicity_before_write (fun s => s)
      (fun _ => .failEarly "timeout") (fun _ => none) 0 [] "http://x/a.zip" "out/a.zip"
      "timeout" [] true (by decide)).1 rfl).2.2.2

/-- C2: a batch of tasks with pairwise distinct locators yields exactly one
result per task, the i-th result tagged with the i-th task's locator (so the
result count equals the task count); `download_file` traps every per-task
exception, so the batch is a total function and never raises for partial
failure; and when the transport layer reports non-empty error messages,
every failed result carries a non-empty error description. -/
theorem batch_completeness (hash : String → String) (fetch : String → FetchBehavior)
    (cacheAddError : String → Option String) (now : Nat) (useCache : Bool)
    (tasks : List (String × String)) (st : Option CacheState × List (String × Nat))
    (_hnodup : (tasks.map Prod.fst).Nodup)
    (hmsg : ∀ u, fetchMsgOk (fetch u)) :
    (downloadBatch hash fetch cacheAddError now useCache tasks st).1.length
        = tasks.length
    ∧ (downloadBatch hash fetch cacheAddError now useCache tasks st).1.map
        (fun r => r.url) = tasks.map Prod.fst
    ∧ ∀ r ∈ (downloadBatch hash fetch cacheAddError now useCache tasks st).1,
        r.success = false → ∃ m, r.error = some m ∧ m ≠ "" := by
  clear _hnodup
  induction tasks generalizing st with
  | nil => simp [downloadBatch]
  | cons t rest ih =>
    obtain ⟨url, path⟩ := t
    have ihApplied := ih (((downloadFile hash fetch cacheAddError now st.1 st.2 url path
      useCache).cache, (downloadFile hash fetch cacheAddError now st.1 st.2 url path
      useCache).fs))
    refine ⟨?_, ?_, ?_⟩
    · simp [downloadBatch, ihApplied.1]
    · simp [downloadBatch, ihApplied.2.1, downloadFile_url]
    · intro r hr hfail
      simp only [downloadBatch, List.mem_cons] at hr
      rcases hr with hr | hr
      · subst hr
        exact downloadFile_failed_error hash fetch cacheAddError now st.1 st.2 url path
          useCache (hmsg url) hfail
      · exact ihApplied.2.2 r hr hfail

theorem batch_completeness_witness :
    ((["http://x/a.zip", "http://x/b.zip"].Nodup)
      ∧ fetchMsgOk (FetchBehavior.failEarly "timeout"))
    ∧ ((downloadBatch (fun s => s) (fun _ => .failEarly "timeout") (fun _ => none) 0 true
        [("http://x/a.zip", "out/a"), ("http://x/b.zip", "out/b")] (none, [])).1.map
          (fun r => r.url) = ["http://x/a.zip", "http://x/b.zip"]
      ∧ (downloadBatch (fun s => s) (fun _ => .failEarly "timeout") (fun _ => none) 0 true
        [("http://x/a.zip", "out/a"), ("http://x/b.zip", "out/b")] (none, [])).1.length
          = 2) := by
  have hm : ∀ u : String, fetchMsgOk ((fun _ : String => FetchBehavior.failEarly "timeout") u) :=
    fun _ => (by decide : ("timeout" : String) ≠ "")
  have h := batch_completeness (fun s => s) (fun _ => .failEarly "timeout")
    (fun _ => none) 0 true [("http://x/a.zip", "out/a"), ("http://x/b.zip", "out/b")]
    (none, []) (by decide) hm
  exact ⟨⟨by decide, hm "u"⟩, h.2.1, h.1⟩

/-
`sanitize_filename` (src/scrape_copernicus.py lines 149-168 and the identical
`EnhancedCopernicusScraper.sanitize_filename`, lines 334-340): strings are
modelled as lists of characters.  The pipeline is
  1. drop the characters matched by the character class of
     `re.sub(r'[<>:"/\\|?*]', '', filename)`,
  2. `filename.replace(' ', '_')` — only the space character U+0020,
  3. `re.sub(r'_+', '_', filename)` — collapse runs of underscores,
  4. `filename.strip('_')` — drop leading and trailing underscores,
  5. `filename[:50]` when longer than 50.
-/

def badFileChars : List Char := ['<', '>', ':', '"', '/', '\\', '|', '?', '*']

/-- `re.sub(r'_+', '_', s)`: every maximal run of underscores becomes one. -/
def collapseUnderscores : List Char → List Char
  | [] => []
  | [c] => [c]
  | c1 :: c2 :: rest =>
    if c1 = '_' ∧ c2 = '_' then collapseUnderscores (c2 :: rest)
    else c1 :: collapseUnderscores (c2 :: rest)

/-- `s.strip('_')`. -/
def stripUnderscores (l : List Char) : List Char :=
  ((l.dropWhile (fun c => decide (c = '_'))).reverse.dropWhile
    (fun c => decide (c = '_'))).reverse

/-- Stages 1-4 of `sanitize_filename`, before the length cap. -/
def sanitizeStripped (s : List Char) : List Char :=
  stripUnderscores (collapseUnderscores
    ((s.filter (fun c => decide (c ∉ badFileChars))).map
      (fun c => if c = ' ' then '_' else c)))

/-- `sanitize_filename`, the whole pipeline. -/
def sanitizeFilename (s : List Char) : List Char :=
  if (sanitizeStripped s).length > 50 then (sanitizeStripped s).take 50
  else sanitizeStripped s

theorem mem_collapseUnderscores {c : Char} :
    ∀ {l : List Char}, c ∈ collapseUnderscores l → c ∈ l := by
  intro l
  induction l using collapseUnderscores.induct with
  | case1 => simp [collapseUnderscores]
  | case2 => simp [collapseUnderscores]
  | case3 c1 c2 rest h ih =>
    simp only [collapseUnderscores, if_pos h]
    intro hc
    exact List.mem_cons_of_mem _ (ih hc)
  | case4 c1 c2 rest h ih =>
    simp only [collapseUnderscores, if_neg h, List.mem_cons]
    rintro (rfl | hc)
    · exact Or.inl rfl
    · exact Or.inr (List.mem_cons.mp (ih hc))

theorem collapseUnderscores_head :
    ∀ (a : Char) (l : List Char),
      (collapseUnderscores (a :: l)).head? = some a
      ∨ (a = '_' ∧ (collapseUnderscores (a :: l)).head? = some '_') := by
  intro a l
  induction l generalizing a with
  | nil => left; rfl
  | cons b rest ih =>
    by_cases h : a = '_' ∧ b = '_'
    · right
      refine ⟨h.1, ?_⟩
      simp only [collapseUnderscores, if_pos h]
      rcases ih b with hb | hb
      · rw [hb, h.2]
      · exact hb.2
    · left
      simp [collapseUnderscores, if_neg h]

theorem chain'_collapseUnderscores :
    ∀ l : List Char,
      List.Chain' (fun a b => ¬(a = '_' ∧ b = '_')) (collapseUnderscores l) := by
  intro l
  induction l using collapseUnderscores.induct with
  | case1 => simp [collapseUnderscores]
  | case2 => simp [collapseUnderscores]
  | case3 c1 c2 rest h ih =>
    simpa [collapseUnderscores, if_pos h] using ih
  | case4 c1 c2 rest h ih =>
    simp only [collapseUnderscores, if_neg h]
    refine List.Chain'.cons' ?_ ?_
    · simpa [collapseUnderscores] using ih
    · intro y hy
      rcases collapseUnderscores_head c2 rest with hh | hh
      · rw [hh] at hy
        simp only [Option.mem_def, Option.some.injEq] at hy
        subst hy
        exact h
      · rw [hh.2] at hy
        simp only [Option.mem_def, Option.some.injEq] at hy
        subst hy
        intro hcon
        exact h ⟨hcon.1, hh.1⟩

theorem chain'_dropWhile {R : Char → Char → Prop} {p : Char → Bool} :
    ∀ {l : List Char}, List.Chain' R l → List.Chain' R (l.dropWhile p) := by
  intro l
  induction l with
  | nil => simp
  | cons a t ih =>
    intro h
    by_cases hp : p a
    · rw [List.dropWhile_cons_of_pos hp]
      exact ih h.tail
    · rwa [List.dropWhile_cons_of_neg hp]

theorem chain'_reverse_symm {R : Char → Char → Prop}
    (hsymm : ∀ a b, R a b → R b a) {l : List Char} (h : List.Chain' R l) :
    List.Chain' R l.reverse := by
  rw [List.chain'_reverse]
  exact h.imp fun a b hab => hsymm a b hab

theorem head_dropWhile_false {p : Char → Bool} {a : Char} :
    ∀ {l : List Char}, (l.dropWhile p).head? = some a → p a = false := by
  intro l
  induction l with
  | nil => simp
  | cons b t ih =>
    by_cases hp : p b
    · rw [List.dropWhile_cons_of_pos hp]
      exact ih
    · rw [List.dropWhile_cons_of_neg hp]
      intro h
      simp only [List.head?_cons, Option.some.injEq] at h
      subst h
      simpa using hp

theorem stripUnderscores_append (l : List Char) :
    stripUnderscores l
        ++ ((l.dropWhile (fun c => decide (c = '_'))).reverse.takeWhile
          (fun c => decide (c = '_'))).reverse
      = l.dropWhile (fun c => decide (c = '_')) := by
  unfold stripUnderscores
  rw [← List.reverse_append, List.takeWhile_append_dropWhile, List.reverse_reverse]

theorem mem_stripUnderscores {c : Char} {l : List Char}
    (h : c ∈ stripUnderscores l) : c ∈ l := by
  unfold stripUnderscores at h
  rw [List.mem_reverse] at h
  have h2 := (List.dropWhile_sublist (fun c => decide (c = '_'))).subset h
  rw [List.mem_reverse] at h2
  exact (List.dropWhile_sublist (fun c => decide (c = '_'))).subset h2

theorem chain'_stripUnderscores {R : Char → Char → Prop}
    (hsymm : ∀ a b, R a b → R b a) {l : List Char} (h : List.Chain' R l) :
    List.Chain' R (stripUnderscores l) := by
  unfold stripUnderscores
  exact chain'_reverse_symm hsymm (chain'_dropWhile (chain'_reverse_symm hsymm
    (chain'_dropWhile h)))

theorem stripUnderscores_head_ne (l : List Char) :
    (stripUnderscores l).head? ≠ some '_' := by
  cases hs : stripUnderscores l with
  | nil => simp
  | cons a t =>
    intro hcon
    simp only [List.head?_cons, Option.some.injEq] at hcon
    subst hcon
    have happ := stripUnderscores_append l
    rw [hs] at happ
    have hh : (l.dropWhile (fun c => decide (c = '_'))).head? = some '_' := by
      rw [← happ]
      rfl
    have := head_dropWhile_false hh
    simp at this

theorem stripUnderscores_getLast_ne (l : List Char) :
    (stripUnderscores l).getLast? ≠ some '_' := by
  unfold stripUnderscores
  rw [List.getLast?_reverse]
  intro hcon
  have := head_dropWhile_false hcon
  simp at this

/-- C10 fails as stated on two points: `sanitize_filename` replaces only the
space character, not general whitespace, so a tab survives uncollapsed; and
the length cap is applied after stripping, so the truncation can expose a
trailing underscore again. -/
theorem sanitize_filename_counterexample :
    sanitizeFilename ['a', '\t', 'b'] = ['a', '\t', 'b']
    ∧ '\t' ∈ sanitizeFilename ['a', '\t', 'b']
    ∧ '\t'.isWhitespace = true
    ∧ (sanitizeFilename (List.replicate 49 'a' ++ '_' :: List.replicate 5 'b')).getLast?
        = some '_' := by
  decide

/-- C10 amended: for every input, `sanitize_filename` removes the nine
disallowed filesystem characters, replaces each space (the space character
only, not all whitespace) by an underscore and collapses runs of underscores
to one, strips leading and trailing underscores, and caps the length at 50 —
with the caveat that the cap is applied last, so the truncated name can again
end in an underscore, though it can never begin with one. -/
theorem sanitize_filename_sound (s : List Char) :
    (∀ c ∈ sanitizeFilename s, c ∉ badFileChars ∧ c ≠ ' ')
    ∧ List.Chain' (fun a b => ¬(a = '_' ∧ b = '_')) (sanitizeFilename s)
    ∧ (sanitizeFilename s).head? ≠ some '_'
    ∧ (sanitizeStripped s).getLast? ≠ some '_'
    ∧ (sanitizeFilename s).length ≤ 50 := by
  have hmem : ∀ c ∈ sanitizeStripped s, c ∉ badFileChars ∧ c ≠ ' ' := by
    intro c hc
    have h2 := mem_collapseUnderscores (mem_stripUnderscores hc)
    simp only [List.mem_map, List.mem_filter] at h2
    obtain ⟨d, ⟨hdm, hdf⟩, rfl⟩ := h2
    by_cases hsp : d = ' '
    · subst hsp
      constructor <;> decide
    · rw [if_neg hsp]
      exact ⟨by simpa using hdf, hsp⟩
  have hchain : List.Chain' (fun a b => ¬(a = '_' ∧ b = '_')) (sanitizeStripped s) := by
    refine chain'_stripUnderscores ?_ (chain'_collapseUnderscores _)
    intro a b hab hcon
    exact hab ⟨hcon.2, hcon.1⟩
  have hhead : (sanitizeStripped s).head? ≠ some '_' := stripUnderscores_head_ne _
  have hcases : sanitizeFilename s = (sanitizeStripped s).take 50
      ∨ sanitizeFilename s = sanitizeStripped s := by
    unfold sanitizeFilename
    split
    · exact Or.inl rfl
    · exact Or.inr rfl
  refine ⟨?_, ?_, ?_, stripUnderscores_getLast_ne _, ?_⟩
  · intro c hc
    rcases hcases with h | h <;> rw [h] at hc
    · exact hmem c (List.take_subset 50 _ hc)
    · exact hmem c hc
  · rcases hcases with h | h <;> rw [h]
    · have := hchain
      rw [← List.take_append_drop 50 (sanitizeStripped s)] at this
      exact (List.chain'_append.mp this).1
    · exact hchain
  · rcases hcases with h | h <;> rw [h]
    · cases hs : sanitizeStripped s with
      | nil => simp
      | cons a t =>
        rw [hs] at hhead
        simpa using hhead
    · exact hhead
  · unfold sanitizeFilename
    split
    · exact List.length_take_le 50 (sanitizeStripped s)
    · omega

theorem sanitize_filename_sound_witness :
    ('b' ∈ sanitizeFilename ['a', ' ', ' ', 'b'])
    ∧ ('b' ∉ badFileChars ∧ 'b' ≠ ' ')
    ∧ (sanitizeFilename ['a', ' ', ' ', 'b']).length ≤ 50 :=
  ⟨by decide, (sanitize_filename_sound ['a', ' ', ' ', 'b']).1 'b' (by decide),
   (sanitize_filename_sound ['a', ' ', ' ', 'b']).2.2.2.2⟩

/-
The crawlers.  `DeepCopernicusScraper.deep_crawl` (src/deep_scraper.py lines
205-306) and `MultiLevelCopernicusScraper._crawl_level`
(src/multilevel_scraper.py lines 36-104) are visited-set-guarded bounded-depth
recursions.  A URL is reduced to the two components the crawlers inspect:
`urlparse(u).netloc` and the rest.  A page graph maps URLs to parsed page
contents; a URL absent from the graph models a transport or parse failure
(the `except` path: the page yields nothing but still counts as visited).
The string/regex classification heuristics (`is_downloadable_file`, the
keyword allow-list, extension detection) are configuration functions of the
model; recursion is guarded exactly as in the source.  The recursion is
realised with a fuel parameter: the top-level call provides
`max_depth + 1` units, one more than the deepest admissible level, so the
fuel never reaches zero before the source's own `depth > max_depth` guard
fires.  Each `CrawlOut` additionally records the trace of (url, depth) pairs
actually fetched, the instrumentation needed to state "no page is traversed
more than once".
-/

structure Url where
  netloc : String
  path : String
deriving Repr, DecidableEq

/-- One anchor on a page: the absolute (already `urljoin`-resolved) target
and the anchor text. -/
structure Link where
  url : Url
  text : String
deriving Repr, DecidableEq

/-- A parsed page as `deep_crawl` sees it: all anchors, plus the resources
contributed by the GitHub / JavaScript-pattern / data-attribute channels
(steps 2-4), which never cause recursion. -/
structure DPage where
  links : List Link
  extra : List Url
deriving Repr, DecidableEq

structure DeepCfg where
  graph : List (Url × DPage)
  maxDepth : Nat
  isDownloadable : Url → Bool
  hasExtension : Url → Bool
  relevantKeyword : Link → Bool

/-- Result of one crawl (sub)call: accumulated resources, the visited set
after the call, and the fetch trace with the depth of each fetch. -/
structure CrawlOut where
  resources : List Url
  visited : List Url
  fetched : List (Url × Nat)
deriving Repr, DecidableEq

def crawlCombine (acc o : CrawlOut) : CrawlOut :=
  ⟨acc.resources ++ o.resources, o.visited, acc.fetched ++ o.fetched⟩

/-- `DeepCopernicusScraper.deep_crawl`.  Guard, visited-set insertion, fetch,
direct file links (step 1), extra channels (steps 2-4), then recursion over
the first 20 anchors filtered by the keyword allow-list, the same-origin
check against the current page, and the visited set (step 5). -/
def deepCrawlF (cfg : DeepCfg) : Nat → Url → Nat → List Url → CrawlOut
  | 0, _, _, visited => ⟨[], visited, []⟩
  | Nat.succ fuel, url, depth, visited =>
    if depth > cfg.maxDepth ∨ url ∈ visited then ⟨[], visited, []⟩
    else
      let visited1 := url :: visited
      match alookup url cfg.graph with
      | none => ⟨[], visited1, [(url, depth)]⟩
      | some page =>
        let direct := (page.links.filter
          (fun l => cfg.isDownloadable l.url && cfg.hasExtension l.url)).map
            (fun l => l.url)
        let acc0 : CrawlOut := ⟨direct ++ page.extra, visited1, [(url, depth)]⟩
        if depth < cfg.maxDepth then
          (page.links.take 20).foldl
            (fun acc l =>
              if cfg.relevantKeyword l ∧ l.url.netloc = url.netloc
                  ∧ l.url ∉ acc.visited then
                crawlCombine acc (deepCrawlF cfg fuel l.url (depth + 1) acc.visited)
              else acc)
            acc0
        else acc0

def deepCrawl (cfg : DeepCfg) (root : Url) : CrawlOut :=
  deepCrawlF cfg (cfg.maxDepth + 1) root 0 []

/-- A parsed page as `_crawl_level` sees it: direct download links (step 1),
download-button targets before the discovery-time visited filter (step 2),
keyword-matching subpage candidates before the same-domain filter (step 3),
and external platform links (step 4). -/
structure MPage where
  directDownloads : List Url
  downloadButtons : List Url
  subpages : List Url
  externals : List Url
deriving Repr, DecidableEq

structure MultiCfg where
  graph : List (Url × MPage)
  maxDepth : Nat

/-- The Mercator Ocean special case of `_crawl_level` step 4: an
`atlas.mercator-ocean.fr` share link gets `/download` appended. -/
def mercatorRewrite (u : Url) : Url :=
  if u.netloc = "atlas.mercator-ocean.fr" ∧ ¬ u.path.endsWith "/download"
  then ⟨u.netloc, u.path ++ "/download"⟩ else u

/-- `MultiLevelCopernicusScraper._crawl_level`.  Note that the
download-button recursion (step 2) is guarded neither by `depth < max_depth`
nor by a same-domain check — only the subpage recursion (step 3) is. -/
def mlCrawlF (cfg : MultiCfg) : Nat → Url → Nat → List Url → CrawlOut
  | 0, _, _, visited => ⟨[], visited, []⟩
  | Nat.succ fuel, url, depth, visited =>
    if depth > cfg.maxDepth ∨ url ∈ visited then ⟨[], visited, []⟩
    else
      let visited1 := url :: visited
      match alookup url cfg.graph with
      | none => ⟨[], visited1, [(url, depth)]⟩
      | some page =>
        let acc0 : CrawlOut := ⟨page.directDownloads, visited1, [(url, depth)]⟩
        let acc1 := (page.downloadButtons.filter (fun b => decide (b ∉ visited1))).foldl
          (fun acc b => crawlCombine acc (mlCrawlF cfg fuel b (depth + 1) acc.visited))
          acc0
        let acc2 :=
          if depth < cfg.maxDepth then
            ((page.subpages.filter
                (fun u2 => decide (u2.netloc = url.netloc))).take 5).foldl
              (fun acc u2 =>
                if u2 ∉ acc.visited then
                  crawlCombine acc (mlCrawlF cfg fuel u2 (depth + 1) acc.visited)
                else acc)
              acc1
          else acc1
        ⟨acc2.resources ++ page.externals.map mercatorRewrite, acc2.visited,
          acc2.fetched⟩

def mlCrawl (cfg : MultiCfg) (root : Url) : CrawlOut :=
  mlCrawlF cfg (cfg.maxDepth + 1) root 0 []

/-- The crawl-session invariant relative to the visited set at entry: every
fetched page was unvisited at entry, no page is fetched twice, and the final
visited set is exactly the entry set plus the fetched pages. -/
def CrawlInv (vis : List Url) (o : CrawlOut) : Prop :=
  (∀ p ∈ o.fetched, p.1 ∉ vis)
  ∧ (o.fetched.map Prod.fst).Nodup
  ∧ (∀ u, u ∈ o.visited ↔ u ∈ o.fetched.map Prod.fst ∨ u ∈ vis)

theorem crawlInv_guard (vis : List Url) : CrawlInv vis ⟨[], vis, []⟩ := by
  simp [CrawlInv]

theorem crawlInv_base (vis : List Url) (res : List Url) (url : Url) (depth : Nat)
    (h : url ∉ vis) : CrawlInv vis ⟨res, url :: vis, [(url, depth)]⟩ := by
  refine ⟨?_, ?_, ?_⟩
  · intro p hp
    simp only [List.mem_singleton] at hp
    subst hp
    exact h
  · simp
  · intro u
    simp [List.mem_cons]

theorem crawlInv_combine {vis : List Url} {acc o : CrawlOut}
    (h1 : CrawlInv vis acc) (h2 : CrawlInv acc.visited o) :
    CrawlInv vis (crawlCombine acc o) := by
  obtain ⟨f1, n1, v1⟩ := h1
  obtain ⟨f2, n2, v2⟩ := h2
  refine ⟨?_, ?_, ?_⟩
  · intro p hp
    rcases List.mem_append.mp hp with hp | hp
    · exact f1 p hp
    · intro hvis
      exact f2 p hp ((v1 p.1).mpr (Or.inr hvis))
  · show (List.map Prod.fst (acc.fetched ++ o.fetched)).Nodup
    rw [List.map_append, List.nodup_append]
    refine ⟨n1, n2, ?_⟩
    intro u hu1 hu2
    rcases List.mem_map.mp hu2 with ⟨p, hp, rfl⟩
    exact f2 p hp ((v1 p.1).mpr (Or.inl hu1))
  · intro u
    rw [show (crawlCombine acc o).visited = o.visited from rfl,
      show (crawlCombine acc o).fetched = acc.fetched ++ o.fetched from rfl,
      List.map_append, List.mem_append, v2 u, v1 u]
    tauto

theorem foldlPreserve {α β : Type} (P : β → Prop) (step : β → α → β)
    (h : ∀ acc a, P acc → P (step acc a)) :
    ∀ (ls : List α) (acc : β), P acc → P (ls.foldl step acc) := by
  intro ls
  induction ls with
  | nil => intro acc hp; exact hp
  | cons a t ih =>
    intro acc hp
    exact ih _ (h acc a hp)

theorem deepCrawlF_inv (cfg : DeepCfg) :
    ∀ (fuel : Nat) (url : Url) (depth : Nat) (vis : List Url),
      CrawlInv vis (deepCrawlF cfg fuel url depth vis) := by
  intro fuel
  induction fuel with
  | zero =>
    intro url depth vis
    exact crawlInv_guard vis
  | succ fuel ih =>
    intro url depth vis
    simp only [deepCrawlF]
    split
    · exact crawlInv_guard vis
    · rename_i hguard
      push_neg at hguard
      split
      · exact crawlInv_base vis _ url depth hguard.2
      · split
        · refine foldlPreserve (CrawlInv vis) _ ?_ _ _
            (crawlInv_base vis _ url depth hguard.2)
          intro acc l hacc
          dsimp only
          split
          · exact crawlInv_combine hacc (ih l.url (depth + 1) acc.visited)
          · exact hacc
        · exact crawlInv_base vis _ url depth hguard.2

theorem mlCrawlF_inv (cfg : MultiCfg) :
    ∀ (fuel : Nat) (url : Url) (depth : Nat) (vis : List Url),
      CrawlInv vis (mlCrawlF cfg fuel url depth vis) := by
  intro fuel
  induction fuel with
  | zero =>
    intro url depth vis
    exact crawlInv_guard vis
  | succ fuel ih =>
    intro url depth vis
    simp only [mlCrawlF]
    split
    · exact crawlInv_guard vis
    · rename_i hguard
      push_neg at hguard
      split
      · exact crawlInv_base vis _ url depth hguard.2
      · rename_i page hpage
        have hstep1 : CrawlInv vis ((page.downloadButtons.filter
            (fun b => decide (b ∉ url :: vis))).foldl
            (fun acc b => crawlCombine acc (mlCrawlF cfg fuel b (depth + 1) acc.visited))
            ⟨page.directDownloads, url :: vis, [(url, depth)]⟩) := by
          refine foldlPreserve (CrawlInv vis) _ ?_ _ _
            (crawlInv_base vis _ url depth hguard.2)
          intro acc b hacc
          exact crawlInv_combine hacc (ih b (depth + 1) acc.visited)
        set acc1 := (page.downloadButtons.filter (fun b => decide (b ∉ url :: vis))).foldl
          (fun acc b => crawlCombine acc (mlCrawlF cfg fuel b (depth + 1) acc.visited))
          ⟨page.directDownloads, url :: vis, [(url, depth)]⟩ with hacc1
        have hstep2 : CrawlInv vis (if depth < cfg.maxDepth then
            ((page.subpages.filter (fun u2 => decide (u2.netloc = url.netloc))).take 5).foldl
              (fun acc u2 =>
                if u2 ∉ acc.visited then
                  crawlCombine acc (mlCrawlF cfg fuel u2 (depth + 1) acc.visited)
                else acc) acc1
          else acc1) := by
          split
          · refine foldlPreserve (CrawlInv vis) _ ?_ _ _ hstep1
            intro acc u2 hacc
            dsimp only
            split
            · exact crawlInv_combine hacc (ih u2 (depth + 1) acc.visited)
            · exact hacc
          · exact hstep1
        exact hstep2

theorem crawlCombine_fetched (acc o : CrawlOut) :
    (crawlCombine acc o).fetched = acc.fetched ++ o.fetched := rfl

theorem deepCrawlF_origin_depth (cfg : DeepCfg) :
    ∀ (fuel : Nat) (url : Url) (depth : Nat) (vis : List Url),
      ∀ p ∈ (deepCrawlF cfg fuel url depth vis).fetched,
        p.1.netloc = url.netloc ∧ p.2 ≤ cfg.maxDepth := by
  intro fuel
  induction fuel with
  | zero =>
    intro url depth vis p hp
    simp [deepCrawlF] at hp
  | succ fuel ih =>
    intro url depth vis
    simp only [deepCrawlF]
    split
    · intro p hp
      simp at hp
    · rename_i hguard
      push_neg at hguard
      split
      · intro p hp
        simp only [List.mem_singleton] at hp
        subst hp
        exact ⟨rfl, hguard.1⟩
      · split
        · refine foldlPreserve
            (fun acc : CrawlOut => ∀ p ∈ acc.fetched,
              p.1.netloc = url.netloc ∧ p.2 ≤ cfg.maxDepth) _ ?_ _ _ ?_
          · intro acc l hacc
            dsimp only
            split
            · rename_i hcond
              intro p hp
              rw [crawlCombine_fetched] at hp
              rcases List.mem_append.mp hp with hp | hp
              · exact hacc p hp
              · have hrec := ih l.url (depth + 1) acc.visited p hp
                exact ⟨hrec.1.trans hcond.2.1, hrec.2⟩
            · exact hacc
          · intro p hp
            simp only [List.mem_singleton] at hp
            subst hp
            exact ⟨rfl, hguard.1⟩
        · intro p hp
          simp only [List.mem_singleton] at hp
          subst hp
          exact ⟨rfl, hguard.1⟩

theorem mlCrawlF_depth (cfg : MultiCfg) :
    ∀ (fuel : Nat) (url : Url) (depth : Nat) (vis : List Url),
      ∀ p ∈ (mlCrawlF cfg fuel url depth vis).fetched, p.2 ≤ cfg.maxDepth := by
  intro fuel
  induction fuel with
  | zero =>
    intro url depth vis p hp
    simp [mlCrawlF] at hp
  | succ fuel ih =>
    intro url depth vis
    simp only [mlCrawlF]
    split
    · intro p hp
      simp at hp
    · rename_i hguard
      push_neg at hguard
      split
      · intro p hp
        simp only [List.mem_singleton] at hp
        subst hp
        exact hguard.1
      · rename_i page hpage
        have hstep1 : ∀ p ∈ ((page.downloadButtons.filter
            (fun b => decide (b ∉ url :: vis))).foldl
            (fun acc b => crawlCombine acc (mlCrawlF cfg fuel b (depth + 1) acc.visited))
            ⟨page.directDownloads, url :: vis, [(url, depth)]⟩).fetched,
            p.2 ≤ cfg.maxDepth := by
          refine foldlPreserve
            (fun acc : CrawlOut => ∀ p ∈ acc.fetched, p.2 ≤ cfg.maxDepth) _ ?_ _ _ ?_
          · intro acc b hacc p hp
            rw [crawlCombine_fetched] at hp
            rcases List.mem_append.mp hp with hp | hp
            · exact hacc p hp
            · exact ih b (depth + 1) acc.visited p hp
          · intro p hp
            simp only [List.mem_singleton] at hp
            subst hp
            exact hguard.1
        split
        · refine foldlPreserve
            (fun acc : CrawlOut => ∀ p ∈ acc.fetched, p.2 ≤ cfg.maxDepth) _ ?_ _ _ hstep1
          intro acc u2 hacc
          dsimp only
          split
          · intro p hp
            rw [crawlCombine_fetched] at hp
            rcases List.mem_append.mp hp with hp | hp
            · exact hacc p hp
            · exact ih u2 (depth + 1) acc.visited p hp
          · exact hacc
        · exact hstep1

/-- A two-page cyclic graph: page A links to B and B back to A. -/
def urlA : Url := ⟨"marine.copernicus.eu", "/A"⟩

def urlB : Url := ⟨"marine.copernicus.eu", "/B"⟩

def cycleDeepCfg : DeepCfg :=
  { graph := [(urlA, ⟨[⟨urlB, "tutorial"⟩], []⟩), (urlB, ⟨[⟨urlA, "tutorial"⟩], []⟩)],
    maxDepth := 3,
    isDownloadable := fun _ => false,
    hasExtension := fun _ => false,
    relevantKeyword := fun _ => true }

def cycleMultiCfg : MultiCfg :=
  { graph := [(urlA, ⟨[], [], [urlB], []⟩), (urlB, ⟨[], [], [urlA], []⟩)],
    maxDepth := 2 }

/-- C6: a locator already in the visited set short-circuits to an empty
result with an unchanged state in both crawlers; the fetch trace of a whole
session never repeats a page (no page traversed twice); and on the cyclic
two-page graph both crawls terminate — they are total functions — with the
explicitly computed, deterministic result. -/
theorem crawl_terminates_dedup :
    (∀ (cfg : DeepCfg) (fuel : Nat) (url : Url) (depth : Nat) (vis : List Url),
      url ∈ vis → deepCrawlF cfg (fuel + 1) url depth vis = ⟨[], vis, []⟩)
    ∧ (∀ (cfg : MultiCfg) (fuel : Nat) (url : Url) (depth : Nat) (vis : List Url),
      url ∈ vis → mlCrawlF cfg (fuel + 1) url depth vis = ⟨[], vis, []⟩)
    ∧ (∀ (cfg : DeepCfg) (root : Url),
      ((deepCrawl cfg root).fetched.map Prod.fst).Nodup)
    ∧ (∀ (cfg : MultiCfg) (root : Url),
      ((mlCrawl cfg root).fetched.map Prod.fst).Nodup)
    ∧ deepCrawl cycleDeepCfg urlA = ⟨[], [urlB, urlA], [(urlA, 0), (urlB, 1)]⟩
    ∧ mlCrawl cycleMultiCfg urlA = ⟨[], [urlB, urlA], [(urlA, 0), (urlB, 1)]⟩ := by
  refine ⟨?_, ?_, ?_, ?_, by decide, by decide⟩
  · intro cfg fuel url depth vis h
    simp [deepCrawlF, h]
  · intro cfg fuel url depth vis h
    simp [mlCrawlF, h]
  · intro cfg root
    exact (deepCrawlF_inv cfg _ root 0 []).2.1
  · intro cfg root
    exact (mlCrawlF_inv cfg _ root 0 []).2.1

theorem crawl_terminates_dedup_witness :
    urlA ∈ [urlA]
    ∧ deepCrawlF cycleDeepCfg 1 urlA 0 [urlA] = ⟨[], [urlA], []⟩
    ∧ ((mlCrawl cycleMultiCfg urlA).fetched.map Prod.fst).Nodup :=
  ⟨by decide, crawl_terminates_dedup.1 cycleDeepCfg 0 urlA 0 [urlA] (by decide),
   crawl_terminates_dedup.2.2.2.1 cycleMultiCfg urlA⟩

/-- A root whose page carries a download button pointing at a different
domain. -/
def rootA : Url := ⟨"marine.copernicus.eu", "/"⟩

def urlX : Url := ⟨"atlas.mercator-ocean.fr", "/s/x"⟩

def crossDomainCfg : MultiCfg :=
  { graph := [(rootA, ⟨[], [urlX], [], []⟩), (urlX, ⟨[], [], [], []⟩)], maxDepth := 2 }

/-- C8 fails on `_crawl_level`: its download-button recursion (step 2 of the
function) carries no same-origin check, so a session rooted at
`marine.copernicus.eu` fetches the `atlas.mercator-ocean.fr` page a download
button points at — a recursively visited page whose domain differs from the
root's. -/
theorem crawler_cross_domain_button_visit :
    (mlCrawl crossDomainCfg rootA).fetched.map Prod.fst = [rootA, urlX]
    ∧ urlX.netloc ≠ rootA.netloc := by
  decide

/-- C8 amended: in `deep_crawl` the recursion is guarded by the keyword list,
`depth < max_depth`, and a same-origin check against the current page, so
every page fetched in a session has the root's domain and a depth at most
`max_depth`; in `_crawl_level` the depth bound also holds for every fetched
page, but only the subpage recursion is same-origin — download-button
recursion may leave the root's domain. -/
theorem same_origin_bounded_depth :
    (∀ (cfg : DeepCfg) (fuel : Nat) (url : Url) (depth : Nat) (vis : List Url),
      ∀ p ∈ (deepCrawlF cfg fuel url depth vis).fetched,
        p.1.netloc = url.netloc ∧ p.2 ≤ cfg.maxDepth)
    ∧ (∀ (cfg : MultiCfg) (fuel : Nat) (url : Url) (depth : Nat) (vis : List Url),
      ∀ p ∈ (mlCrawlF cfg fuel url depth vis).fetched, p.2 ≤ cfg.maxDepth) :=
  ⟨deepCrawlF_origin_depth, mlCrawlF_depth⟩

theorem same_origin_bounded_depth_witness :
    ((urlB, 1) ∈ (deepCrawlF cycleDeepCfg (cycleDeepCfg.maxDepth + 1) urlA 0 []).fetched)
    ∧ (urlB.netloc = urlA.netloc ∧ 1 ≤ cycleDeepCfg.maxDepth) :=
  ⟨by decide, same_origin_bounded_depth.1 cycleDeepCfg (cycleDeepCfg.maxDepth + 1) urlA 0
    [] (urlB, 1) (by decide)⟩
